import Mathlib

/-!
# Verification of the Claudiv CLI transactional core

A shallow embedding of the claudiv-ai/cli repository's change-processing core:

* `src/updater.ts` — the transaction coordinator `executeTransaction`
  (file ops, ref replacement, fact append, manifest persist, rollback);
* `src/system-manager.ts` — the system scaffolder `createSystemComponents`;
* the watch-loop / change-processor control flow of the CLI engine
  (`main` / `processFileChange` / `processChange`).

The filesystem is modelled as a map from paths to optional file contents.
Failure of the asynchronous filesystem primitives (`writeFile`, `unlink`) and of
the manifest persist is injected through an explicit failure plan, mirroring the
points where the TypeScript code can raise.
-/

namespace Claudiv

/-! ## Filesystem model -/

/-- On-disk state: each path is either absent or holds a string content. -/
def FS : Type := String → Option String

/-- `fs/promises.writeFile`: (re)creates the file with the given content. -/
def fsWrite (fs : FS) (path content : String) : FS :=
  fun p => if p = path then some content else fs p

/-- `fs/promises.unlink`: removes the file. -/
def fsDelete (fs : FS) (path : String) : FS :=
  fun p => if p = path then none else fs p

/-- `fs.existsSync`. -/
def existsSync (fs : FS) (path : String) : Bool :=
  (fs path).isSome

/-- A filesystem with no files. -/
def fsEmpty : FS := fun _ => none

/-! ## Data model (`@claudiv/core` types, as used by `updater.ts`) -/

/-- The `type` field of a `TransactionOp`: `'write' | 'delete'`. -/
inductive OpType where
  | write
  | delete
deriving DecidableEq, Repr

/-- `TransactionOp` from `src/updater.ts`: one pending filesystem effect.
`content` is the optional new content (`content?`); `previousContent` is the
optional captured rollback value (`previousContent?`), set by the coordinator
once the op is applied. -/
structure TransactionOp where
  type : OpType
  file : String
  content : Option String := none
  previousContent : Option String := none
deriving DecidableEq, Repr

/-- `ContextRef`: maps one artifact file to metadata (the metadata fields are
opaque to the coordinator, so they are collapsed into one string). -/
structure ContextRef where
  file : String
  meta : String
deriving DecidableEq, Repr

/-- `ContextFact`: an immutable statement (text + source tag). -/
structure ContextFact where
  text : String
  source : String
deriving DecidableEq, Repr

/-- A manifest scope: path, ordered refs, ordered facts. -/
structure Scope where
  path : String
  refs : List ContextRef
  facts : List ContextFact
deriving DecidableEq, Repr

/-- `ContextManifest`: a global scope plus an ordered collection of named
scopes. (The global scope's `path` field is unused by the coordinator.) -/
structure ContextManifest where
  global : Scope
  scopes : List Scope
deriving DecidableEq, Repr

/-- Modelled from the spec: `serializeContextManifest` is imported from the
external `@claudiv/core` package, whose source is not in this repository.
The spec only requires that the manifest round-trips losslessly through
load→mutate→persist, so it is modelled as a concrete serialization; no claim
inspects the output format. -/
def serializeScope (s : Scope) : String :=
  "<scope path=\"" ++ s.path ++ "\">"
    ++ String.join (s.refs.map (fun r => "<ref file=\"" ++ r.file ++ "\" meta=\"" ++ r.meta ++ "\"/>"))
    ++ String.join (s.facts.map (fun f => "<fact source=\"" ++ f.source ++ "\">" ++ f.text ++ "</fact>"))
    ++ "</scope>"

/-- Modelled from the spec: serialization of the whole manifest (external
`@claudiv/core` function; see `serializeScope`). -/
def serializeContextManifest (m : ContextManifest) : String :=
  "<claudiv-context>" ++ serializeScope m.global
    ++ String.join (m.scopes.map serializeScope) ++ "</claudiv-context>"

/-! ## Failure injection

The TypeScript coordinator can raise at each `await`ed filesystem primitive:
the per-op `writeFile`/`unlink`/`readFile` in step 1, the manifest `writeFile`
in step 4, and the `writeFile`/`unlink` calls during rollback. A `FailPlan`
decides which of those primitive calls raise; a raising call has no effect on
the filesystem. -/

/-- Which primitive filesystem calls raise: the call made for the op at
(0-based) position `i` of `ops`, the manifest persist, and the call made for
the rollback entry at position `j` of the reversed completed list. -/
structure FailPlan where
  opFails : Nat → Bool
  persistFails : Bool
  rollbackFails : Nat → Bool

/-- The failure plan under which every primitive call succeeds. -/
def planOk : FailPlan :=
  { opFails := fun _ => false, persistFails := false, rollbackFails := fun _ => false }

/-! ## Step 1: applying the file ops (`updater.ts` lines 42–59) -/

/-- Result of the step-1 loop: the `completed` list (in apply order, each entry
carrying its captured `previousContent`), the filesystem reached, and the index
of the failing op, if any. -/
structure ApplyResult where
  completed : List TransactionOp
  fs : FS
  failedAt : Option Nat

/-- The step-1 loop of `executeTransaction`: for a write op with content,
capture the existing content (if the file exists) as the rollback value, write
the new content, and append the op to `completed`; a write op without content
is skipped; for a delete op, only if the file exists: capture its content,
unlink it, and append to `completed`. The loop stops at the first op whose
primitive call raises. -/
def applyOps (plan : FailPlan) : List TransactionOp → FS → Nat → ApplyResult
  | [], fs, _ => ⟨[], fs, none⟩
  | op :: rest, fs, i =>
    match op.type, op.content with
    | OpType.write, some c =>
      if plan.opFails i then ⟨[], fs, some i⟩
      else
        let prev := if existsSync fs op.file then fs op.file else op.previousContent
        let op' := { op with previousContent := prev }
        let r := applyOps plan rest (fsWrite fs op.file c) (i + 1)
        ⟨op' :: r.completed, r.fs, r.failedAt⟩
    | OpType.write, none => applyOps plan rest fs (i + 1)
    | OpType.delete, _ =>
      if existsSync fs op.file then
        if plan.opFails i then ⟨[], fs, some i⟩
        else
          let op' := { op with previousContent := fs op.file }
          let r := applyOps plan rest (fsDelete fs op.file) (i + 1)
          ⟨op' :: r.completed, r.fs, r.failedAt⟩
      else applyOps plan rest fs (i + 1)

/-! ## Steps 2–3: ref replacement and fact append (`updater.ts` lines 61–80) -/

/-- One iteration of the ref-update loop: `findIndex` the ref with the same
artifact file; replace it in place if found, else push. -/
def applyRef (refs : List ContextRef) (r : ContextRef) : List ContextRef :=
  match refs.findIdx? (fun x => x.file == r.file) with
  | some i => refs.set i r
  | none => refs ++ [r]

/-- The full ref-update loop over `newRefs`. -/
def applyRefs (refs : List ContextRef) (newRefs : List ContextRef) : List ContextRef :=
  newRefs.foldl applyRef refs

/-- `contextManifest.scopes.find(s => s.path === scopePath)` succeeds. -/
def scopeExists (m : ContextManifest) (p : String) : Bool :=
  m.scopes.any (fun s => s.path == p)

/-- In-place mutation of the first scope whose path matches (the TS `find`
returns that scope object and the loops mutate it). -/
def updateFirstScope (p : String) (f : Scope → Scope) : List Scope → List Scope
  | [] => []
  | s :: rest => if s.path == p then f s :: rest else s :: updateFirstScope p f rest

/-- Steps 2–3 of `executeTransaction`: if a scope matches `scopePath`, apply
the ref-replacement loop to it and (when `newFacts` is non-empty) push the new
facts onto its fact list; otherwise leave all scopes untouched and push the new
facts onto the global scope's fact list. (The TS guard `'facts' in targetScope`
always holds: both scope shapes carry a `facts` array.) -/
def commitRefsFacts (m : ContextManifest) (newRefs : List ContextRef)
    (newFacts : List ContextFact) (scopePath : String) : ContextManifest :=
  if scopeExists m scopePath then
    let upd := fun s =>
      { s with
        refs := applyRefs s.refs newRefs,
        facts := if newFacts.length > 0 then s.facts ++ newFacts else s.facts }
    { m with scopes := updateFirstScope scopePath upd m.scopes }
  else
    let factsAfter := if newFacts.length > 0 then m.global.facts ++ newFacts else m.global.facts
    { m with global := { m.global with facts := factsAfter } }

/-! ## Rollback (`updater.ts` lines 85–102) -/

/-- Undo one completed op: a write with captured previous content is rewritten
with it; a write with no previous content is deleted (if present); a delete
with captured previous content is rewritten; a delete with none is left alone. -/
def rollbackOp (fs : FS) (op : TransactionOp) : FS :=
  match op.type, op.previousContent with
  | OpType.write, some prev => fsWrite fs op.file prev
  | OpType.write, none => if existsSync fs op.file then fsDelete fs op.file else fs
  | OpType.delete, some prev => fsWrite fs op.file prev
  | OpType.delete, none => fs

/-- The rollback loop over `completed.reverse()`: each entry's undo is
attempted; an entry whose primitive call raises is logged and skipped, and the
loop continues with the remaining entries (best-effort). -/
def rollback (plan : FailPlan) : List TransactionOp → FS → Nat → FS
  | [], fs, _ => fs
  | op :: rest, fs, j =>
      rollback plan rest (if plan.rollbackFails j then fs else rollbackOp fs op) (j + 1)

/-! ## The transaction coordinator (`updater.ts` `executeTransaction`) -/

/-- What `executeTransaction` re-raises: the original failure of the op at
index `k`, or the original failure of the manifest persist. Rollback failures
are logged, never raised. -/
inductive TxError where
  | opFailed (k : Nat)
  | persistFailed
deriving DecidableEq, Repr

/-- Outcome of one `executeTransaction` call: the filesystem, the in-memory
manifest object as the caller sees it afterwards, and the error re-raised to
the caller (`none` = committed). -/
structure TxResult where
  fs : FS
  manifest : ContextManifest
  error : Option TxError

/-- `executeTransaction` from `src/updater.ts`:
1. apply the file ops (first failure aborts the loop);
2–3. update the matching scope's refs and append the facts (in memory);
4. persist the serialized manifest to `contextPath`.
On any failure, roll back the completed ops in reverse apply order
(best-effort) and re-raise the original error. Note that steps 2–3 mutate the
caller's manifest object in place, so when the persist fails the caller still
observes the mutated manifest. -/
def executeTransaction (ops : List TransactionOp) (contextManifest : ContextManifest)
    (contextPath : String) (newRefs : List ContextRef) (newFacts : List ContextFact)
    (scopePath : String) (fs : FS) (plan : FailPlan) : TxResult :=
  let r := applyOps plan ops fs 0
  match r.failedAt with
  | some k =>
      { fs := rollback plan r.completed.reverse r.fs 0,
        manifest := contextManifest,
        error := some (TxError.opFailed k) }
  | none =>
      let m' := commitRefsFacts contextManifest newRefs newFacts scopePath
      if plan.persistFails then
        { fs := rollback plan r.completed.reverse r.fs 0,
          manifest := m',
          error := some TxError.persistFailed }
      else
        { fs := fsWrite r.fs contextPath (serializeContextManifest m'),
          manifest := m',
          error := none }

/-! ## Basic filesystem lemmas -/

theorem fsWrite_self (fs : FS) (f c : String) : fsWrite fs f c f = some c := by
  simp [fsWrite]

theorem fsWrite_other (fs : FS) (f c p : String) (h : p ≠ f) : fsWrite fs f c p = fs p := by
  simp [fsWrite, h]

theorem fsDelete_other (fs : FS) (f p : String) (h : p ≠ f) : fsDelete fs f p = fs p := by
  simp [fsDelete, h]

theorem fsWrite_restore (fs : FS) (f c prev : String) (h : fs f = some prev) :
    fsWrite (fsWrite fs f c) f prev = fs := by
  funext p
  by_cases hp : p = f
  · subst hp; simp [fsWrite, h]
  · simp [fsWrite, hp]

theorem fsDelete_restore_new (fs : FS) (f c : String) (h : fs f = none) :
    fsDelete (fsWrite fs f c) f = fs := by
  funext p
  by_cases hp : p = f
  · subst hp; simp [fsDelete, h]
  · simp [fsDelete, fsWrite, hp]

theorem fsWrite_restore_deleted (fs : FS) (f prev : String) (h : fs f = some prev) :
    fsWrite (fsDelete fs f) f prev = fs := by
  funext p
  by_cases hp : p = f
  · subst hp; simp [fsWrite, h]
  · simp [fsWrite, fsDelete, hp]

/-! ## Rollback machinery -/

/-- Rollback with no failing undo calls is a left fold of `rollbackOp`. -/
def rollbackAll (l : List TransactionOp) (fs : FS) : FS :=
  l.foldl rollbackOp fs

theorem rollbackAll_nil (fs : FS) : rollbackAll [] fs = fs := rfl

theorem rollbackAll_cons (op : TransactionOp) (rest : List TransactionOp) (fs : FS) :
    rollbackAll (op :: rest) fs = rollbackAll rest (rollbackOp fs op) := rfl

theorem rollbackAll_append (l1 l2 : List TransactionOp) (fs : FS) :
    rollbackAll (l1 ++ l2) fs = rollbackAll l2 (rollbackAll l1 fs) := by
  simp [rollbackAll, List.foldl_append]

theorem rollback_eq_rollbackAll (plan : FailPlan) (h : ∀ j, plan.rollbackFails j = false)
    (l : List TransactionOp) : ∀ (fs : FS) (j : Nat), rollback plan l fs j = rollbackAll l fs := by
  induction l with
  | nil => intro fs j; rfl
  | cons op rest ih =>
    intro fs j
    rw [rollback, h j, rollbackAll_cons]
    simp only [Bool.false_eq_true, if_false]
    exact ih (rollbackOp fs op) (j + 1)

/-- Rolling back everything that step 1 completed — in reverse apply order —
restores the initial filesystem exactly, provided the caller did not pre-set
any `previousContent`. This holds whether or not the loop stopped at a
failure. -/
theorem rollbackAll_reverse_applyOps (plan : FailPlan) (ops : List TransactionOp) :
    ∀ (fs : FS) (i : Nat), (∀ op ∈ ops, op.previousContent = none) →
      rollbackAll (applyOps plan ops fs i).completed.reverse (applyOps plan ops fs i).fs = fs := by
  induction ops with
  | nil => intro fs i _; rfl
  | cons op rest ih =>
    intro fs i h
    have hop : op.previousContent = none := h op (List.mem_cons_self op rest)
    have hrest : ∀ o ∈ rest, o.previousContent = none := fun o ho => h o (List.mem_cons_of_mem op ho)
    obtain ⟨ty, f, co, pc⟩ := op
    simp only at hop
    subst hop
    cases ty with
    | write =>
      cases co with
      | none => simpa only [applyOps] using ih fs (i + 1) hrest
      | some c =>
        by_cases hf : plan.opFails i
        · simp [applyOps, hf, rollbackAll_nil]
        · cases hex : fs f with
          | some prev =>
            simp only [applyOps, hf, Bool.false_eq_true, if_false, existsSync, hex,
              Option.isSome_some, if_true, List.reverse_cons, rollbackAll_append,
              ih (fsWrite fs f c) (i + 1) hrest, rollbackAll_cons, rollbackAll_nil]
            exact fsWrite_restore fs f c prev hex
          | none =>
            simp only [applyOps, hf, Bool.false_eq_true, if_false, existsSync, hex,
              Option.isSome_none, if_false, List.reverse_cons, rollbackAll_append,
              ih (fsWrite fs f c) (i + 1) hrest, rollbackAll_cons, rollbackAll_nil]
            rw [rollbackOp]
            simp only [existsSync, fsWrite_self, Option.isSome_some, if_true]
            exact fsDelete_restore_new fs f c hex
    | delete =>
      cases hex : fs f with
      | none =>
        simpa only [applyOps, existsSync, hex, Option.isSome_none, if_false]
          using ih fs (i + 1) hrest
      | some prev =>
        by_cases hf : plan.opFails i
        · simp [applyOps, existsSync, hex, hf, rollbackAll_nil]
        · simp only [applyOps, existsSync, hex, Option.isSome_some, if_true, hf,
            Bool.false_eq_true, if_false, List.reverse_cons, rollbackAll_append,
            ih (fsDelete fs f) (i + 1) hrest, rollbackAll_cons, rollbackAll_nil]
          rw [rollbackOp]
          exact fsWrite_restore_deleted fs f prev hex

/-- An undo call touches only its own file. -/
theorem rollbackOp_at_ne (fs : FS) (op : TransactionOp) (p : String) (h : p ≠ op.file) :
    rollbackOp fs op p = fs p := by
  obtain ⟨ty, f, co, pc⟩ := op
  simp only at h
  cases ty <;> cases pc <;>
    simp only [rollbackOp, fsWrite_other _ _ _ _ h, fsDelete_other _ _ _ h]
  split
  · exact fsDelete_other fs f p h
  · rfl

/-- The value of an undone filesystem at `p` depends only on the old value at `p`. -/
theorem rollbackOp_congr_at (op : TransactionOp) (p : String) (fs₁ fs₂ : FS)
    (h : fs₁ p = fs₂ p) : rollbackOp fs₁ op p = rollbackOp fs₂ op p := by
  obtain ⟨ty, f, co, pc⟩ := op
  by_cases hp : p = f
  · subst hp
    cases ty <;> cases pc <;>
      simp only [rollbackOp, fsWrite_self, existsSync, h]
    split <;> simp [fsDelete, h]
  · rw [rollbackOp_at_ne _ _ _ hp, rollbackOp_at_ne _ _ _ hp, h]

theorem rollbackAll_congr_at (l : List TransactionOp) (p : String) :
    ∀ fs₁ fs₂ : FS, fs₁ p = fs₂ p → rollbackAll l fs₁ p = rollbackAll l fs₂ p := by
  induction l with
  | nil => intro fs₁ fs₂ h; exact h
  | cons op rest ih =>
    intro fs₁ fs₂ h
    rw [rollbackAll_cons, rollbackAll_cons]
    exact ih _ _ (rollbackOp_congr_at op p fs₁ fs₂ h)

/-- Placeholder op used only as the default value of `List.getD`. -/
def dummyOp : TransactionOp := { type := OpType.write, file := "" }

/-- Best effort, per file: at a path `p` whose undo calls all succeed, the
rollback loop with failures computes the same value as the failure-free loop —
failing undo calls for *other* files do not disturb `p`. -/
theorem rollback_eq_rollbackAll_at (plan : FailPlan) (p : String) (l : List TransactionOp) :
    ∀ (fs : FS) (j : Nat),
      (∀ i < l.length, plan.rollbackFails (j + i) = true → (l.getD i dummyOp).file ≠ p) →
      rollback plan l fs j p = rollbackAll l fs p := by
  induction l with
  | nil => intro fs j _; rfl
  | cons op rest ih =>
    intro fs j h
    have hshift : ∀ i < rest.length, plan.rollbackFails (j + 1 + i) = true →
        (rest.getD i dummyOp).file ≠ p := by
      intro i hi hf
      have hlen : i + 1 < (op :: rest).length := by simpa using Nat.succ_lt_succ hi
      have := h (i + 1) hlen (by rwa [show j + (i + 1) = j + 1 + i by omega])
      simpa [List.getD_cons_succ] using this
    rw [rollback, rollbackAll_cons]
    by_cases hrb : plan.rollbackFails j
    · have hne : op.file ≠ p := by
        have := h 0 (by simp) (by simpa using hrb)
        simpa [List.getD_cons_zero] using this
      rw [if_pos hrb, ih fs (j + 1) hshift]
      exact rollbackAll_congr_at rest p fs (rollbackOp fs op)
        (rollbackOp_at_ne fs op p (Ne.symm hne)).symm
    · rw [if_neg hrb]
      exact ih (rollbackOp fs op) (j + 1) hshift

/-! ## Frame lemmas: paths no op mentions are never touched -/

theorem applyOps_frame (plan : FailPlan) (p : String) (ops : List TransactionOp) :
    ∀ (fs : FS) (i : Nat), (∀ op ∈ ops, op.file ≠ p) →
      (applyOps plan ops fs i).fs p = fs p := by
  induction ops with
  | nil => intro fs i _; rfl
  | cons op rest ih =>
    intro fs i h
    have hop : op.file ≠ p := h op (List.mem_cons_self op rest)
    have hrest : ∀ o ∈ rest, o.file ≠ p := fun o ho => h o (List.mem_cons_of_mem op ho)
    obtain ⟨ty, f, co, pc⟩ := op
    simp only at hop
    cases ty with
    | write =>
      cases co with
      | none => simpa only [applyOps] using ih fs (i + 1) hrest
      | some c =>
        by_cases hf : plan.opFails i
        · simp [applyOps, hf]
        · simp only [applyOps, hf, Bool.false_eq_true, if_false]
          rw [ih (fsWrite fs f c) (i + 1) hrest]
          exact fsWrite_other fs f c p (Ne.symm hop)
    | delete =>
      cases hex : existsSync fs f with
      | false => simpa only [applyOps, hex, Bool.false_eq_true, if_false]
          using ih fs (i + 1) hrest
      | true =>
        by_cases hf : plan.opFails i
        · simp [applyOps, hex, hf]
        · simp only [applyOps, hex, if_true, hf, Bool.false_eq_true, if_false]
          rw [ih (fsDelete fs f) (i + 1) hrest]
          exact fsDelete_other fs f p (Ne.symm hop)

/-- Every completed entry is one of the declared ops with its rollback value
filled in; in particular its `file` is one of the declared files. -/
theorem applyOps_completed_files (plan : FailPlan) (ops : List TransactionOp) :
    ∀ (fs : FS) (i : Nat) (op' : TransactionOp),
      op' ∈ (applyOps plan ops fs i).completed → ∃ op ∈ ops, op'.file = op.file := by
  induction ops with
  | nil => intro fs i op' h; exact absurd h (by simp [applyOps])
  | cons op rest ih =>
    intro fs i op' hmem
    obtain ⟨ty, f, co, pc⟩ := op
    cases ty with
    | write =>
      cases co with
      | none =>
        simp only [applyOps] at hmem
        obtain ⟨o, ho, hfile⟩ := ih fs (i + 1) op' hmem
        exact ⟨o, List.mem_cons_of_mem _ ho, hfile⟩
      | some c =>
        by_cases hf : plan.opFails i
        · simp [applyOps, hf] at hmem
        · simp only [applyOps, hf, Bool.false_eq_true, if_false, List.mem_cons] at hmem
          cases hmem with
          | inl heq => exact ⟨_, List.mem_cons_self _ _, by rw [heq]⟩
          | inr hmem =>
            obtain ⟨o, ho, hfile⟩ := ih (fsWrite fs f c) (i + 1) op' hmem
            exact ⟨o, List.mem_cons_of_mem _ ho, hfile⟩
    | delete =>
      cases hex : existsSync fs f with
      | false =>
        simp only [applyOps, hex, Bool.false_eq_true, if_false] at hmem
        obtain ⟨o, ho, hfile⟩ := ih fs (i + 1) op' hmem
        exact ⟨o, List.mem_cons_of_mem _ ho, hfile⟩
      | true =>
        by_cases hf : plan.opFails i
        · simp [applyOps, hex, hf] at hmem
        · simp only [applyOps, hex, if_true, hf, Bool.false_eq_true, if_false,
            List.mem_cons] at hmem
          cases hmem with
          | inl heq => exact ⟨_, List.mem_cons_self _ _, by rw [heq]⟩
          | inr hmem =>
            obtain ⟨o, ho, hfile⟩ := ih (fsDelete fs f) (i + 1) op' hmem
            exact ⟨o, List.mem_cons_of_mem _ ho, hfile⟩

theorem rollback_frame (plan : FailPlan) (p : String) (l : List TransactionOp) :
    ∀ (fs : FS) (j : Nat), (∀ op ∈ l, op.file ≠ p) → rollback plan l fs j p = fs p := by
  induction l with
  | nil => intro fs j _; rfl
  | cons op rest ih =>
    intro fs j h
    have hop : op.file ≠ p := h op (List.mem_cons_self op rest)
    have hrest : ∀ o ∈ rest, o.file ≠ p := fun o ho => h o (List.mem_cons_of_mem op ho)
    rw [rollback]
    rw [ih _ (j + 1) hrest]
    split
    · rfl
    · exact rollbackOp_at_ne fs op p (Ne.symm hop)

/-! ## Concrete fixtures used by witnesses and counterexamples -/

/-- A manifest with no named scopes and an empty global scope. -/
def mEmpty : ContextManifest := ⟨⟨"", [], []⟩, []⟩

/-- A failure plan where only the op at index 1 fails. -/
def planFailOp1 : FailPlan :=
  { opFails := fun i => i == 1, persistFails := false, rollbackFails := fun _ => false }

/-- A failure plan where only the op at index 2 fails and, during rollback, the
undo call for the entry at reverse-position 0 fails. -/
def planFailOp2RbFail0 : FailPlan :=
  { opFails := fun i => i == 2, persistFails := false, rollbackFails := fun j => j == 0 }

/-- A failure plan where only the manifest persist fails. -/
def planPersistFail : FailPlan :=
  { opFails := fun _ => false, persistFails := true, rollbackFails := fun _ => false }

/-! ## Claim theorems -/

/-- **C1.** For every call to `executeTransaction` in which the k-th op fails
after ops 1..k-1 were applied (`applyOps` reports `failedAt = some k`), after
the rollback completes (no undo call fails, and the caller did not pre-set any
`previousContent`), the on-disk content of every file — in particular of every
file touched by ops 1..k-1 — equals its content before the transaction
started: an overwritten file is rewritten with the captured previous content
byte-identically, a newly created file is deleted, and a deleted file is
rewritten with its captured previous content. -/
theorem C1_failed_op_rollback_restores_disk
    (ops : List TransactionOp) (m : ContextManifest) (cp : String)
    (nr : List ContextRef) (nf : List ContextFact) (sp : String)
    (fs : FS) (plan : FailPlan) (k : Nat)
    (hfresh : ∀ op ∈ ops, op.previousContent = none)
    (hrb : ∀ j, plan.rollbackFails j = false)
    (hfail : (applyOps plan ops fs 0).failedAt = some k) :
    ∀ p, (executeTransaction ops m cp nr nf sp fs plan).fs p = fs p := by
  intro p
  have hx : (executeTransaction ops m cp nr nf sp fs plan).fs
      = rollback plan (applyOps plan ops fs 0).completed.reverse (applyOps plan ops fs 0).fs 0 := by
    simp only [executeTransaction, hfail]
  rw [hx, rollback_eq_rollbackAll plan hrb, rollbackAll_reverse_applyOps plan ops fs 0 hfresh]

/-- Witness for C1: two write ops, the second fails; the first had overwritten
`b.txt` (previous content `"old"`), and after rollback `b.txt` holds `"old"`
again. -/
theorem C1_witness :
    (executeTransaction
      [{ type := OpType.write, file := "b.txt", content := some "y" },
       { type := OpType.write, file := "a.txt", content := some "x" }]
      mEmpty "ctx" [] [] "" (fsWrite fsEmpty "b.txt" "old") planFailOp1).fs "b.txt"
      = (fsWrite fsEmpty "b.txt" "old") "b.txt" :=
  C1_failed_op_rollback_restores_disk
    [{ type := OpType.write, file := "b.txt", content := some "y" },
     { type := OpType.write, file := "a.txt", content := some "x" }]
    mEmpty "ctx" [] [] "" (fsWrite fsEmpty "b.txt" "old") planFailOp1 1
    (by decide) (fun _ => rfl) (by decide) "b.txt"

/-- **C2 counterexample.** The claim that "the manifest file on disk and the
in-memory `ContextManifest` object are only mutated together, at step 4" is
false at a concrete input: when the persist itself fails, steps 2–3 have
already mutated the in-memory manifest (a fact was appended), the call
re-raises, yet the manifest file on disk was never written. -/
theorem C2_counterexample :
    (executeTransaction [] mEmpty "ctx" [] [⟨"decision", "plan"⟩] "" fsEmpty
        planPersistFail).error = some TxError.persistFailed ∧
    (executeTransaction [] mEmpty "ctx" [] [⟨"decision", "plan"⟩] "" fsEmpty
        planPersistFail).manifest.global.facts = [⟨"decision", "plan"⟩] ∧
    mEmpty.global.facts = [] ∧
    (executeTransaction [] mEmpty "ctx" [] [⟨"decision", "plan"⟩] "" fsEmpty
        planPersistFail).fs "ctx" = none := by
  refine ⟨rfl, rfl, rfl, rfl⟩

/-- **C2 (amended).** For every execution of `executeTransaction` that fails at
any point before the persist completes, the manifest file on disk is exactly as
it was before the transaction started, provided no declared op targets the
manifest path — the persist is the only write the coordinator itself makes to
`contextPath`, and it runs only after the refs/facts mutation, which runs only
after all file ops. (The in-memory manifest object, by contrast, may already
carry the refs/facts mutations when the persist itself is what failed.) -/
theorem C2_manifest_file_untouched_on_failure
    (ops : List TransactionOp) (m : ContextManifest) (cp : String)
    (nr : List ContextRef) (nf : List ContextFact) (sp : String)
    (fs : FS) (plan : FailPlan) (e : TxError)
    (hcp : ∀ op ∈ ops, op.file ≠ cp)
    (herr : (executeTransaction ops m cp nr nf sp fs plan).error = some e) :
    (executeTransaction ops m cp nr nf sp fs plan).fs cp = fs cp := by
  have hcomp : ∀ op' ∈ (applyOps plan ops fs 0).completed.reverse, op'.file ≠ cp := by
    intro op' hmem
    rw [List.mem_reverse] at hmem
    obtain ⟨op, hop, hfile⟩ := applyOps_completed_files plan ops fs 0 op' hmem
    rw [hfile]
    exact hcp op hop
  have hroll : rollback plan (applyOps plan ops fs 0).completed.reverse
      (applyOps plan ops fs 0).fs 0 cp = fs cp := by
    rw [rollback_frame plan cp _ _ 0 hcomp]
    exact applyOps_frame plan cp ops fs 0 hcp
  cases hfa : (applyOps plan ops fs 0).failedAt with
  | some k =>
    have hx : (executeTransaction ops m cp nr nf sp fs plan).fs
        = rollback plan (applyOps plan ops fs 0).completed.reverse (applyOps plan ops fs 0).fs 0 := by
      simp only [executeTransaction, hfa]
    rw [hx]; exact hroll
  | none =>
    by_cases hpf : plan.persistFails
    · have hx : (executeTransaction ops m cp nr nf sp fs plan).fs
          = rollback plan (applyOps plan ops fs 0).completed.reverse (applyOps plan ops fs 0).fs 0 := by
        simp only [executeTransaction, hfa, hpf, if_true]
      rw [hx]; exact hroll
    · exact absurd herr (by simp [executeTransaction, hfa, hpf])

/-- Witness for C2 (amended): one write op to `a.txt`, the persist fails; the
manifest file `ctx` (absent beforehand) is still absent afterwards. -/
theorem C2_witness :
    (executeTransaction [{ type := OpType.write, file := "a.txt", content := some "x" }]
        mEmpty "ctx" [] [] "" fsEmpty planPersistFail).fs "ctx" = fsEmpty "ctx" :=
  C2_manifest_file_untouched_on_failure
    [{ type := OpType.write, file := "a.txt", content := some "x" }]
    mEmpty "ctx" [] [] "" fsEmpty planPersistFail TxError.persistFailed
    (by decide) (by decide)

/-- A failure plan where the persist fails and, during rollback, the undo call
for the entry at reverse-position 0 fails. -/
def planPersistFailRbFail0 : FailPlan :=
  { opFails := fun _ => false, persistFails := true, rollbackFails := fun j => j == 0 }

/-- **C3.** For every call to `executeTransaction` in which any step raises —
step 1 failing at some op (`failedAt = some k`), or every op applied and the
manifest persist failing: the completed ops are undone by walking the
completed list in exact reverse apply order; a rollback failure on one op does
not prevent the rollback attempts on the remaining ops — every path `p` whose
own undo calls all succeed is restored to its pre-transaction content even
when undo calls for other paths fail — and the original failure (`opFailed k`
when step 1 raised at `k`, `persistFailed` when the persist raised), never any
rollback failure, is re-raised to the caller in every case. -/
theorem C3_reverse_best_effort_rollback_reraises_original
    (ops : List TransactionOp) (m : ContextManifest) (cp : String)
    (nr : List ContextRef) (nf : List ContextFact) (sp : String)
    (fs : FS) (plan : FailPlan) (p : String)
    (hfresh : ∀ op ∈ ops, op.previousContent = none)
    (hraise : (applyOps plan ops fs 0).failedAt ≠ none ∨ plan.persistFails = true)
    (hsafe : ∀ i < (applyOps plan ops fs 0).completed.reverse.length,
      plan.rollbackFails i = true →
      ((applyOps plan ops fs 0).completed.reverse.getD i dummyOp).file ≠ p) :
    (executeTransaction ops m cp nr nf sp fs plan).error
      = (match (applyOps plan ops fs 0).failedAt with
         | some k => some (TxError.opFailed k)
         | none => some TxError.persistFailed) ∧
    (executeTransaction ops m cp nr nf sp fs plan).fs p = fs p := by
  have hroll : rollback plan (applyOps plan ops fs 0).completed.reverse
      (applyOps plan ops fs 0).fs 0 p = fs p := by
    rw [rollback_eq_rollbackAll_at plan p _ _ 0 (by simpa using hsafe)]
    exact congrFun (rollbackAll_reverse_applyOps plan ops fs 0 hfresh) p
  cases hfa : (applyOps plan ops fs 0).failedAt with
  | some k =>
    constructor
    · simp only [executeTransaction, hfa]
    · have hx : (executeTransaction ops m cp nr nf sp fs plan).fs
          = rollback plan (applyOps plan ops fs 0).completed.reverse
              (applyOps plan ops fs 0).fs 0 := by
        simp only [executeTransaction, hfa]
      rw [hx]; exact hroll
  | none =>
    have hpf : plan.persistFails = true := by
      rcases hraise with h | h
      · exact absurd hfa h
      · exact h
    constructor
    · simp only [executeTransaction, hfa, hpf, if_true]
    · have hx : (executeTransaction ops m cp nr nf sp fs plan).fs
          = rollback plan (applyOps plan ops fs 0).completed.reverse
              (applyOps plan ops fs 0).fs 0 := by
        simp only [executeTransaction, hfa, hpf, if_true]
      rw [hx]; exact hroll

/-- Witness for C3, covering both raising steps. Op failure: three write ops,
the third fails; during rollback the undo call for `b.txt` (reverse-position
0) fails, yet `a.txt` (reverse-position 1) is still rolled back — it was newly
created and is deleted again — and the re-raised error is the original
`opFailed 2`. Persist failure: both ops applied, the persist fails; the undo
of `a.txt` (reverse-position 0) fails, yet `b.txt` is still restored to
`"old"`, and the re-raised error is the original `persistFailed`. -/
theorem C3_witness :
    ((executeTransaction
      [{ type := OpType.write, file := "a.txt", content := some "x" },
       { type := OpType.write, file := "b.txt", content := some "y" },
       { type := OpType.write, file := "c.txt", content := some "z" }]
      mEmpty "ctx" [] [] "" (fsWrite fsEmpty "b.txt" "old") planFailOp2RbFail0).error
      = some (TxError.opFailed 2) ∧
    (executeTransaction
      [{ type := OpType.write, file := "a.txt", content := some "x" },
       { type := OpType.write, file := "b.txt", content := some "y" },
       { type := OpType.write, file := "c.txt", content := some "z" }]
      mEmpty "ctx" [] [] "" (fsWrite fsEmpty "b.txt" "old") planFailOp2RbFail0).fs "a.txt"
      = (fsWrite fsEmpty "b.txt" "old") "a.txt") ∧
    ((executeTransaction
      [{ type := OpType.write, file := "b.txt", content := some "y" },
       { type := OpType.write, file := "a.txt", content := some "x" }]
      mEmpty "ctx" [] [] "" (fsWrite fsEmpty "b.txt" "old") planPersistFailRbFail0).error
      = some TxError.persistFailed ∧
    (executeTransaction
      [{ type := OpType.write, file := "b.txt", content := some "y" },
       { type := OpType.write, file := "a.txt", content := some "x" }]
      mEmpty "ctx" [] [] "" (fsWrite fsEmpty "b.txt" "old") planPersistFailRbFail0).fs "b.txt"
      = (fsWrite fsEmpty "b.txt" "old") "b.txt") :=
  ⟨C3_reverse_best_effort_rollback_reraises_original
    [{ type := OpType.write, file := "a.txt", content := some "x" },
     { type := OpType.write, file := "b.txt", content := some "y" },
     { type := OpType.write, file := "c.txt", content := some "z" }]
    mEmpty "ctx" [] [] "" (fsWrite fsEmpty "b.txt" "old") planFailOp2RbFail0 "a.txt"
    (by decide) (Or.inl (by decide)) (by decide),
   C3_reverse_best_effort_rollback_reraises_original
    [{ type := OpType.write, file := "b.txt", content := some "y" },
     { type := OpType.write, file := "a.txt", content := some "x" }]
    mEmpty "ctx" [] [] "" (fsWrite fsEmpty "b.txt" "old") planPersistFailRbFail0 "b.txt"
    (by decide) (Or.inr rfl) (by decide)⟩

/-! ## Ref replacement: lemmas about `applyRef` / `applyRefs` -/

/-- Refs are unique by artifact file within their scope (spec data-model
invariant for `ContextRef`). -/
def uniqueByFile (refs : List ContextRef) : Prop :=
  refs.Pairwise (fun a b => a.file ≠ b.file)

instance uniqueByFileDecidable (refs : List ContextRef) : Decidable (uniqueByFile refs) := by
  unfold uniqueByFile; infer_instance

/-- Recursive characterization of one `findIndex`-replace-or-push step:
replace the first ref with the same file in place, else append. -/
def applyRefCore : List ContextRef → ContextRef → List ContextRef
  | [], r => [r]
  | x :: rest, r => if x.file == r.file then r :: rest else x :: applyRefCore rest r

theorem applyRef_eq_core (refs : List ContextRef) (r : ContextRef) :
    applyRef refs r = applyRefCore refs r := by
  induction refs with
  | nil => rfl
  | cons x rest ih =>
    by_cases hx : x.file == r.file
    · simp [applyRef, applyRefCore, hx, List.findIdx?_cons]
    · rw [applyRefCore, if_neg hx]
      rw [applyRef, List.findIdx?_cons, if_neg hx, List.findIdx?_start_succ]
      rw [applyRef] at ih
      cases hidx : rest.findIdx? (fun y => y.file == r.file) with
      | none => simp only [hidx] at ih; simp [hidx, ih]
      | some i =>
        simp only [hidx] at ih
        rw [show Option.map (fun k => k + (0 + 1)) (some i) = some (i + 1) from rfl]
        show (x :: rest).set (i + 1) r = x :: applyRefCore rest r
        rw [List.set_cons_succ, ih]

theorem applyRefCore_mem (refs : List ContextRef) (r : ContextRef) :
    ∀ y ∈ applyRefCore refs r, y = r ∨ y ∈ refs := by
  induction refs with
  | nil => intro y hy; simp [applyRefCore] at hy; exact Or.inl hy
  | cons x rest ih =>
    intro y hy
    rw [applyRefCore] at hy
    split at hy
    · rcases List.mem_cons.mp hy with h | h
      · exact Or.inl h
      · exact Or.inr (List.mem_cons_of_mem x h)
    · rcases List.mem_cons.mp hy with h | h
      · exact Or.inr (h ▸ List.mem_cons_self x rest)
      · rcases ih y h with h' | h'
        · exact Or.inl h'
        · exact Or.inr (List.mem_cons_of_mem x h')

theorem applyRefCore_unique (refs : List ContextRef) (r : ContextRef)
    (hu : uniqueByFile refs) : uniqueByFile (applyRefCore refs r) := by
  induction refs with
  | nil => simp [applyRefCore, uniqueByFile]
  | cons x rest ih =>
    rw [uniqueByFile, List.pairwise_cons] at hu
    obtain ⟨hx, hrest⟩ := hu
    rw [applyRefCore]
    by_cases hfx : x.file == r.file
    · rw [if_pos hfx]
      rw [uniqueByFile, List.pairwise_cons]
      refine ⟨?_, hrest⟩
      intro b hb
      rw [← (by simpa using hfx : x.file = r.file)]
      exact hx b hb
    · rw [if_neg hfx]
      rw [uniqueByFile, List.pairwise_cons]
      refine ⟨?_, ih hrest⟩
      intro b hb
      rcases applyRefCore_mem rest r b hb with h | h
      · rw [h]; simpa using hfx
      · exact hx b h

/-- After replacing/appending a ref for file `f` in a file-unique list, exactly
the refs with file `f` are `[r]` — the new metadata, once. -/
theorem applyRefCore_filter_self (refs : List ContextRef) (r : ContextRef) (f : String)
    (hu : uniqueByFile refs) (hr : r.file = f) :
    (applyRefCore refs r).filter (fun x => x.file == f) = [r] := by
  induction refs with
  | nil => simp [applyRefCore, List.filter, hr]
  | cons x rest ih =>
    rw [uniqueByFile, List.pairwise_cons] at hu
    obtain ⟨hx, hrest⟩ := hu
    rw [applyRefCore]
    by_cases hfx : x.file == r.file
    · rw [if_pos hfx]
      have hxf : x.file = f := by rw [(by simpa using hfx : x.file = r.file), hr]
      have : rest.filter (fun y => y.file == f) = [] := by
        rw [List.filter_eq_nil_iff]
        intro b hb
        have : x.file ≠ b.file := hx b hb
        simp only [beq_iff_eq]
        rw [← hxf]
        exact fun hbf => this hbf.symm
      simp [List.filter_cons, hr, this]
    · rw [if_neg hfx]
      have hxf : ¬ (x.file == f) := by
        simp only [beq_iff_eq] at hfx ⊢
        rw [← hr] at *
        exact hfx
      simp only [List.filter_cons, hxf, if_neg, Bool.false_eq_true, if_false]
      exact ih hrest

/-- Replacing/appending a ref for a *different* file leaves the refs with file
`f` unchanged (no uniqueness needed). -/
theorem applyRefCore_filter_other (refs : List ContextRef) (r : ContextRef) (f : String)
    (hr : r.file ≠ f) :
    (applyRefCore refs r).filter (fun x => x.file == f) = refs.filter (fun x => x.file == f) := by
  induction refs with
  | nil => simp [applyRefCore, List.filter_cons, hr]
  | cons x rest ih =>
    rw [applyRefCore]
    by_cases hfx : x.file == r.file
    · rw [if_pos hfx]
      have hxf : ¬ (x.file == f) := by
        simp only [beq_iff_eq] at hfx ⊢
        rw [hfx]; exact hr
      simp [List.filter_cons, hr, hxf]
    · rw [if_neg hfx]
      simp only [List.filter_cons]
      rw [ih]

theorem applyRefs_unique (nr : List ContextRef) :
    ∀ refs : List ContextRef, uniqueByFile refs → uniqueByFile (applyRefs refs nr) := by
  induction nr with
  | nil => intro refs h; exact h
  | cons r rest ih =>
    intro refs h
    rw [applyRefs, List.foldl_cons, applyRef_eq_core]
    exact ih _ (applyRefCore_unique refs r h)

theorem applyRefs_filter_other (nr : List ContextRef) (f : String) :
    ∀ refs : List ContextRef, (∀ x ∈ nr, x.file ≠ f) →
      (applyRefs refs nr).filter (fun x => x.file == f) = refs.filter (fun x => x.file == f) := by
  induction nr with
  | nil => intro refs _; rfl
  | cons r rest ih =>
    intro refs h
    rw [applyRefs, List.foldl_cons, applyRef_eq_core]
    rw [show List.foldl applyRef (applyRefCore refs r) rest = applyRefs (applyRefCore refs r) rest from rfl]
    rw [ih _ (fun x hx => h x (List.mem_cons_of_mem r hx))]
    exact applyRefCore_filter_other refs r f (h r (List.mem_cons_self r rest))

/-- Running the whole ref-update loop over a batch that names file `f` exactly
once — via ref `r` — leaves exactly one ref with file `f` in the scope: `r`. -/
theorem applyRefs_filter_single (refs : List ContextRef) (f : String) (r : ContextRef)
    (pre post : List ContextRef) (hu : uniqueByFile refs) (hr : r.file = f)
    (_hpre : ∀ x ∈ pre, x.file ≠ f) (hpost : ∀ x ∈ post, x.file ≠ f) :
    (applyRefs refs (pre ++ r :: post)).filter (fun x => x.file == f) = [r] := by
  rw [applyRefs, List.foldl_append, List.foldl_cons]
  rw [show List.foldl applyRef refs pre = applyRefs refs pre from rfl, applyRef_eq_core]
  rw [show List.foldl applyRef (applyRefCore (applyRefs refs pre) r) post
      = applyRefs (applyRefCore (applyRefs refs pre) r) post from rfl]
  rw [applyRefs_filter_other post f _ hpost]
  exact applyRefCore_filter_self (applyRefs refs pre) r f (applyRefs_unique pre refs hu) hr

/-! ## Locating scopes through a commit -/

/-- The scope the coordinator's `find` selects: the first scope whose path
matches. -/
def findScope (m : ContextManifest) (p : String) : Option Scope :=
  m.scopes.find? (fun s => s.path == p)

theorem find?_updateFirstScope (p : String) (f : Scope → Scope)
    (hf : ∀ s, (f s).path = s.path) (l : List Scope) :
    (updateFirstScope p f l).find? (fun s => s.path == p)
      = (l.find? (fun s => s.path == p)).map f := by
  induction l with
  | nil => rfl
  | cons s rest ih =>
    rw [updateFirstScope]
    by_cases hs : s.path == p
    · rw [if_pos hs]
      rw [List.find?_cons, List.find?_cons]
      have : ((f s).path == p) = true := by rw [hf s]; exact hs
      simp [this, hs]
    · rw [if_neg hs]
      rw [List.find?_cons, List.find?_cons]
      simp only [Bool.not_eq_true] at hs
      simp [hs, ih]

theorem scopeExists_iff_findScope (m : ContextManifest) (p : String) :
    scopeExists m p = true ↔ (findScope m p).isSome := by
  rw [scopeExists, findScope, List.any_eq_true, List.find?_isSome]

/-- Committing refs/facts transforms the selected scope pointwise: its refs go
through the replacement loop and its facts get the new facts appended. -/
theorem findScope_commitRefsFacts (m : ContextManifest) (nr : List ContextRef)
    (nf : List ContextFact) (sp : String) :
    findScope (commitRefsFacts m nr nf sp) sp
      = (findScope m sp).map (fun s =>
          { s with refs := applyRefs s.refs nr,
                   facts := if nf.length > 0 then s.facts ++ nf else s.facts }) := by
  by_cases hex : scopeExists m sp
  · rw [commitRefsFacts, if_pos hex]
    show (updateFirstScope sp _ m.scopes).find? (fun s => s.path == sp) = _
    rw [find?_updateFirstScope sp
      (fun s => { path := s.path, refs := applyRefs s.refs nr,
                  facts := if nf.length > 0 then s.facts ++ nf else s.facts })
      (fun s => rfl) m.scopes]
    rfl
  · rw [commitRefsFacts, if_neg hex]
    have h1 : findScope m sp = none := by
      cases h : findScope m sp with
      | none => rfl
      | some s =>
        exact absurd ((scopeExists_iff_findScope m sp).mpr (by rw [h]; rfl)) hex
    show findScope m sp = (findScope m sp).map _
    rw [h1]
    rfl

/-- In a file-unique ref list, `findIndex` locates exactly the position of the
matching ref. -/
theorem findIdx?_of_uniqueByFile (refs : List ContextRef) (g : String) :
    ∀ (i : Nat) (h : i < refs.length), uniqueByFile refs → (refs.get ⟨i, h⟩).file = g →
      refs.findIdx? (fun x => x.file == g) = some i := by
  induction refs with
  | nil => intro i h; exact absurd h (by simp)
  | cons x rest ih =>
    intro i h hu hg
    rw [uniqueByFile, List.pairwise_cons] at hu
    obtain ⟨hx, hrest⟩ := hu
    cases i with
    | zero =>
      have hg0 : x.file = g := hg
      rw [List.findIdx?_cons, if_pos (by simpa using hg0)]
    | succ i' =>
      have h' : i' < rest.length := by simpa using h
      have hg' : (rest.get ⟨i', h'⟩).file = g := hg
      have hxg : ¬ (x.file == g) := by
        have hmem : rest.get ⟨i', h'⟩ ∈ rest := List.get_mem _ _ _
        have := hx _ hmem
        rw [hg'] at this
        simpa using this
      rw [List.findIdx?_cons, if_neg hxg, List.findIdx?_start_succ, ih i' h' hrest hg']
      rfl

/-- A committed transaction's manifest is exactly the refs/facts commit. -/
theorem committed_manifest (ops : List TransactionOp) (m : ContextManifest) (cp : String)
    (nr : List ContextRef) (nf : List ContextFact) (sp : String) (fs : FS) (plan : FailPlan)
    (h : (executeTransaction ops m cp nr nf sp fs plan).error = none) :
    (executeTransaction ops m cp nr nf sp fs plan).manifest = commitRefsFacts m nr nf sp := by
  cases hfa : (applyOps plan ops fs 0).failedAt with
  | some k => exact absurd h (by simp [executeTransaction, hfa])
  | none =>
    by_cases hpf : plan.persistFails
    · exact absurd h (by simp [executeTransaction, hfa, hpf])
    · simp [executeTransaction, hfa, hpf]

/-- **C4.** For every committed transaction on a scope whose refs are unique by
artifact file beforehand: (a) a ref in `newRefs` whose artifact file already
has a ref in the scope replaces that ref in place — the list becomes `set i`
of the old list, so the positions of all other refs are unchanged; (b) a ref
with a new file is appended at the end; and (c) committing two transactions
that both name a ref for the same artifact file `f` in the same scope leaves
exactly one ref for that file, carrying the second transaction's metadata. -/
theorem C4_ref_replacement_in_place
    : (∀ (refs : List ContextRef) (r : ContextRef) (i : Nat) (h : i < refs.length),
        uniqueByFile refs → (refs.get ⟨i, h⟩).file = r.file → applyRef refs r = refs.set i r)
    ∧ (∀ (refs : List ContextRef) (r : ContextRef),
        (∀ x ∈ refs, x.file ≠ r.file) → applyRef refs r = refs ++ [r])
    ∧ (∀ (m : ContextManifest) (cp sp f : String) (s : Scope)
        (ops₁ ops₂ : List TransactionOp) (fs₁ fs₂ : FS) (plan₁ plan₂ : FailPlan)
        (nf₁ nf₂ : List ContextFact) (r₁ r₂ : ContextRef)
        (pre₁ post₁ pre₂ post₂ : List ContextRef),
        findScope m sp = some s → uniqueByFile s.refs →
        r₁.file = f → r₂.file = f →
        (∀ x ∈ pre₁, x.file ≠ f) → (∀ x ∈ post₁, x.file ≠ f) →
        (∀ x ∈ pre₂, x.file ≠ f) → (∀ x ∈ post₂, x.file ≠ f) →
        (executeTransaction ops₁ m cp (pre₁ ++ r₁ :: post₁) nf₁ sp fs₁ plan₁).error = none →
        (executeTransaction ops₂
          (executeTransaction ops₁ m cp (pre₁ ++ r₁ :: post₁) nf₁ sp fs₁ plan₁).manifest
          cp (pre₂ ++ r₂ :: post₂) nf₂ sp fs₂ plan₂).error = none →
        ∃ s₂ : Scope,
          findScope (executeTransaction ops₂
            (executeTransaction ops₁ m cp (pre₁ ++ r₁ :: post₁) nf₁ sp fs₁ plan₁).manifest
            cp (pre₂ ++ r₂ :: post₂) nf₂ sp fs₂ plan₂).manifest sp = some s₂ ∧
          s₂.refs.filter (fun x => x.file == f) = [r₂]) := by
  refine ⟨?_, ?_, ?_⟩
  · -- (a) in-place replacement at the unique matching index
    intro refs r i h hu hi
    rw [applyRef, findIdx?_of_uniqueByFile refs r.file i h hu hi]
  · -- (b) append when no ref has the file
    intro refs r h
    rw [applyRef]
    have : refs.findIdx? (fun x => x.file == r.file) = none := by
      rw [List.findIdx?_eq_none_iff]
      intro x hx
      simpa using h x hx
    rw [this]
  · -- (c) two committed transactions, second metadata wins
    intro m cp sp f s ops₁ ops₂ fs₁ fs₂ plan₁ plan₂ nf₁ nf₂ r₁ r₂ pre₁ post₁ pre₂ post₂
      hfs hu h₁f h₂f hpre₁ hpost₁ hpre₂ hpost₂ herr₁ herr₂
    have hm₁ := committed_manifest ops₁ m cp (pre₁ ++ r₁ :: post₁) nf₁ sp fs₁ plan₁ herr₁
    have hm₂ := committed_manifest ops₂ _ cp (pre₂ ++ r₂ :: post₂) nf₂ sp fs₂ plan₂ herr₂
    rw [hm₂, hm₁]
    rw [findScope_commitRefsFacts, findScope_commitRefsFacts, hfs]
    refine ⟨_, rfl, ?_⟩
    show (applyRefs (applyRefs s.refs (pre₁ ++ r₁ :: post₁)) (pre₂ ++ r₂ :: post₂)).filter
        (fun x => x.file == f) = [r₂]
    exact applyRefs_filter_single _ f r₂ pre₂ post₂
      (applyRefs_unique (pre₁ ++ r₁ :: post₁) s.refs hu) h₂f hpre₂ hpost₂

/-- A manifest with one named scope `"s"` holding two file-unique refs. -/
def mTwoRefs : ContextManifest :=
  ⟨⟨"", [], []⟩, [⟨"s", [⟨"f.ts", "m0"⟩, ⟨"g.ts", "m1"⟩], []⟩]⟩

/-- Witness for C4: (a) replacing the ref for `f.ts` (at index 0) is `set 0`;
(b) a ref for the fresh `h.ts` is appended; (c) two successive metadata-only
committed transactions that each name a ref for `f.ts` in scope `"s"` leave
exactly one ref for `f.ts`, with the second transaction's metadata. -/
theorem C4_witness :
    (applyRef [⟨"f.ts", "m0"⟩, ⟨"g.ts", "m1"⟩] ⟨"f.ts", "FIRST"⟩
      = [⟨"f.ts", "FIRST"⟩, ⟨"g.ts", "m1"⟩]) ∧
    (applyRef [⟨"f.ts", "m0"⟩, ⟨"g.ts", "m1"⟩] ⟨"h.ts", "H"⟩
      = [⟨"f.ts", "m0"⟩, ⟨"g.ts", "m1"⟩, ⟨"h.ts", "H"⟩]) ∧
    (∃ s₂ : Scope,
      findScope (executeTransaction []
        (executeTransaction [] mTwoRefs "ctx" [⟨"f.ts", "FIRST"⟩] [] "s" fsEmpty planOk).manifest
        "ctx" [⟨"f.ts", "SECOND"⟩] [] "s" fsEmpty planOk).manifest "s" = some s₂ ∧
      s₂.refs.filter (fun x => x.file == "f.ts") = [⟨"f.ts", "SECOND"⟩]) := by
  refine ⟨?_, ?_, ?_⟩
  · exact C4_ref_replacement_in_place.1
      [⟨"f.ts", "m0"⟩, ⟨"g.ts", "m1"⟩] ⟨"f.ts", "FIRST"⟩ 0 (by decide) (by decide) (by decide)
  · exact C4_ref_replacement_in_place.2.1
      [⟨"f.ts", "m0"⟩, ⟨"g.ts", "m1"⟩] ⟨"h.ts", "H"⟩ (by decide)
  · exact C4_ref_replacement_in_place.2.2 mTwoRefs "ctx" "s" "f.ts"
      ⟨"s", [⟨"f.ts", "m0"⟩, ⟨"g.ts", "m1"⟩], []⟩ [] [] fsEmpty fsEmpty planOk planOk [] []
      ⟨"f.ts", "FIRST"⟩ ⟨"f.ts", "SECOND"⟩ [] [] [] []
      rfl (by decide) rfl rfl (by decide) (by decide) (by decide) (by decide) rfl rfl

/-! ## Fact lists are append-only -/

/-- The inputs of one `executeTransaction` call (the manifest path is fixed
for the process). -/
structure TxInput where
  ops : List TransactionOp
  newRefs : List ContextRef
  newFacts : List ContextFact
  scopePath : String
  plan : FailPlan

/-- Running a sequence of transactions, threading manifest and filesystem. -/
def runTxs (cp : String) : List TxInput → ContextManifest → FS → ContextManifest × FS
  | [], m, fs => (m, fs)
  | t :: rest, m, fs =>
    let r := executeTransaction t.ops m cp t.newRefs t.newFacts t.scopePath fs t.plan
    runTxs cp rest r.manifest r.fs

/-- One scope evolves append-only: same path, and the new fact list is the old
one with some suffix appended — no existing entry is mutated or removed, and
the length never decreases. -/
def scopeFactsExtend (s s' : Scope) : Prop :=
  s'.path = s.path ∧ ∃ t, s'.facts = s.facts ++ t

/-- A manifest evolves append-only in all its fact lists: globally and
scope-by-scope (same scope count, same paths, positionally matched). -/
def factsExtend (m m' : ContextManifest) : Prop :=
  (∃ t, m'.global.facts = m.global.facts ++ t) ∧
  List.Forall₂ scopeFactsExtend m.scopes m'.scopes

theorem scopeFactsExtend_refl (s : Scope) : scopeFactsExtend s s :=
  ⟨rfl, [], (List.append_nil s.facts).symm⟩

theorem scopeFactsExtend_trans {s₁ s₂ s₃ : Scope}
    (h₁ : scopeFactsExtend s₁ s₂) (h₂ : scopeFactsExtend s₂ s₃) : scopeFactsExtend s₁ s₃ := by
  obtain ⟨hp₁, t₁, ht₁⟩ := h₁
  obtain ⟨hp₂, t₂, ht₂⟩ := h₂
  exact ⟨hp₂.trans hp₁, t₁ ++ t₂, by rw [ht₂, ht₁, List.append_assoc]⟩

theorem forall₂_scopeFactsExtend_refl (l : List Scope) :
    List.Forall₂ scopeFactsExtend l l := by
  induction l with
  | nil => exact List.Forall₂.nil
  | cons s rest ih => exact List.Forall₂.cons (scopeFactsExtend_refl s) ih

theorem forall₂_scopeFactsExtend_trans :
    ∀ {l₁ l₂ l₃ : List Scope}, List.Forall₂ scopeFactsExtend l₁ l₂ →
      List.Forall₂ scopeFactsExtend l₂ l₃ → List.Forall₂ scopeFactsExtend l₁ l₃ := by
  intro l₁ l₂ l₃ h₁
  induction h₁ generalizing l₃ with
  | nil => intro h₂; cases h₂; exact List.Forall₂.nil
  | cons hs hrest ih =>
    intro h₂
    cases h₂ with
    | cons hs' hrest' => exact List.Forall₂.cons (scopeFactsExtend_trans hs hs') (ih hrest')

theorem factsExtend_refl (m : ContextManifest) : factsExtend m m :=
  ⟨⟨[], (List.append_nil _).symm⟩, forall₂_scopeFactsExtend_refl m.scopes⟩

theorem factsExtend_trans {m₁ m₂ m₃ : ContextManifest}
    (h₁ : factsExtend m₁ m₂) (h₂ : factsExtend m₂ m₃) : factsExtend m₁ m₃ := by
  obtain ⟨⟨t₁, ht₁⟩, hs₁⟩ := h₁
  obtain ⟨⟨t₂, ht₂⟩, hs₂⟩ := h₂
  exact ⟨⟨t₁ ++ t₂, by rw [ht₂, ht₁, List.append_assoc]⟩,
    forall₂_scopeFactsExtend_trans hs₁ hs₂⟩

theorem updateFirstScope_factsExtend (p : String) (f : Scope → Scope)
    (hf : ∀ s, scopeFactsExtend s (f s)) (l : List Scope) :
    List.Forall₂ scopeFactsExtend l (updateFirstScope p f l) := by
  induction l with
  | nil => exact List.Forall₂.nil
  | cons s rest ih =>
    rw [updateFirstScope]
    by_cases hs : s.path == p
    · rw [if_pos hs]
      exact List.Forall₂.cons (hf s) (forall₂_scopeFactsExtend_refl rest)
    · rw [if_neg hs]
      exact List.Forall₂.cons (scopeFactsExtend_refl s) ih

theorem commitRefsFacts_factsExtend (m : ContextManifest) (nr : List ContextRef)
    (nf : List ContextFact) (sp : String) :
    factsExtend m (commitRefsFacts m nr nf sp) := by
  rw [commitRefsFacts]
  by_cases hex : scopeExists m sp
  · rw [if_pos hex]
    refine ⟨⟨[], (List.append_nil _).symm⟩, ?_⟩
    refine updateFirstScope_factsExtend sp _ ?_ m.scopes
    intro s
    refine ⟨rfl, ?_⟩
    by_cases hnf : nf.length > 0
    · exact ⟨nf, by simp [hnf]⟩
    · exact ⟨[], by simp [hnf]⟩
  · rw [if_neg hex]
    refine ⟨?_, forall₂_scopeFactsExtend_refl m.scopes⟩
    by_cases hnf : nf.length > 0
    · exact ⟨nf, by simp [hnf]⟩
    · exact ⟨[], by simp [hnf]⟩

/-- Every call to `executeTransaction` — committed or failed — leaves the
manifest object's fact lists append-only extended. -/
theorem executeTransaction_factsExtend (ops : List TransactionOp) (m : ContextManifest)
    (cp : String) (nr : List ContextRef) (nf : List ContextFact) (sp : String)
    (fs : FS) (plan : FailPlan) :
    factsExtend m (executeTransaction ops m cp nr nf sp fs plan).manifest := by
  cases hfa : (applyOps plan ops fs 0).failedAt with
  | some k =>
    have : (executeTransaction ops m cp nr nf sp fs plan).manifest = m := by
      simp [executeTransaction, hfa]
    rw [this]; exact factsExtend_refl m
  | none =>
    by_cases hpf : plan.persistFails
    · have : (executeTransaction ops m cp nr nf sp fs plan).manifest
          = commitRefsFacts m nr nf sp := by
        simp [executeTransaction, hfa, hpf]
      rw [this]; exact commitRefsFacts_factsExtend m nr nf sp
    · have : (executeTransaction ops m cp nr nf sp fs plan).manifest
          = commitRefsFacts m nr nf sp := by
        simp [executeTransaction, hfa, hpf]
      rw [this]; exact commitRefsFacts_factsExtend m nr nf sp

/-- The no-matching-scope form of the commit: only the global fact list grows. -/
theorem commitRefsFacts_no_scope (m : ContextManifest) (nr : List ContextRef)
    (nf : List ContextFact) (sp : String) (hex : scopeExists m sp = false) :
    commitRefsFacts m nr nf sp
      = ⟨⟨m.global.path, m.global.refs, m.global.facts ++ nf⟩, m.scopes⟩ := by
  rw [commitRefsFacts, if_neg (by simp [hex])]
  cases nf with
  | nil => simp
  | cons a t => simp

/-- **C5.** Facts are append-only. (a) A committed transaction appends all
`newFacts` to the end of the matching scope's fact list verbatim — no
deduplication or merging; (b) when no scope matches, they are appended
verbatim to the global scope's fact list and nothing else in the manifest
changes; (c) across every sequence of transactions, every fact list (global
and per positionally-corresponding scope) only ever grows by appending a
suffix, so its length is monotonically non-decreasing and no existing entry
is mutated or removed. -/
theorem C5_facts_append_only
    : (∀ (ops : List TransactionOp) (m : ContextManifest) (cp : String)
        (nr : List ContextRef) (nf : List ContextFact) (sp : String) (fs : FS)
        (plan : FailPlan) (s : Scope),
        (executeTransaction ops m cp nr nf sp fs plan).error = none →
        findScope m sp = some s →
        findScope (executeTransaction ops m cp nr nf sp fs plan).manifest sp
          = some ⟨s.path, applyRefs s.refs nr, s.facts ++ nf⟩)
    ∧ (∀ (ops : List TransactionOp) (m : ContextManifest) (cp : String)
        (nr : List ContextRef) (nf : List ContextFact) (sp : String) (fs : FS)
        (plan : FailPlan),
        (executeTransaction ops m cp nr nf sp fs plan).error = none →
        findScope m sp = none →
        (executeTransaction ops m cp nr nf sp fs plan).manifest
          = ⟨⟨m.global.path, m.global.refs, m.global.facts ++ nf⟩, m.scopes⟩)
    ∧ (∀ (cp : String) (txs : List TxInput) (m : ContextManifest) (fs : FS),
        factsExtend m (runTxs cp txs m fs).1) := by
  refine ⟨?_, ?_, ?_⟩
  · intro ops m cp nr nf sp fs plan s herr hs
    rw [committed_manifest ops m cp nr nf sp fs plan herr]
    rw [findScope_commitRefsFacts, hs]
    have hfacts : (if nf.length > 0 then s.facts ++ nf else s.facts) = s.facts ++ nf := by
      cases nf with
      | nil => simp
      | cons a t => simp
    simp [hfacts]
  · intro ops m cp nr nf sp fs plan herr hs
    rw [committed_manifest ops m cp nr nf sp fs plan herr]
    refine commitRefsFacts_no_scope m nr nf sp ?_
    cases hex : scopeExists m sp with
    | false => rfl
    | true =>
      have := (scopeExists_iff_findScope m sp).mp hex
      rw [hs] at this
      exact absurd this (by simp)
  · intro cp txs
    induction txs with
    | nil => intro m fs; exact factsExtend_refl m
    | cons t rest ih =>
      intro m fs
      rw [runTxs]
      exact factsExtend_trans
        (executeTransaction_factsExtend t.ops m cp t.newRefs t.newFacts t.scopePath fs t.plan)
        (ih _ _)

/-- Witness for C5: a committed metadata-only transaction on `mTwoRefs`
appends one fact to scope `"s"`; with no matching scope, the fact lands on the
global list; and a two-transaction sequence leaves the fact lists extended. -/
theorem C5_witness :
    (findScope (executeTransaction [] mTwoRefs "ctx" [] [⟨"d1", "plan"⟩] "s" fsEmpty
        planOk).manifest "s"
      = some ⟨"s", [⟨"f.ts", "m0"⟩, ⟨"g.ts", "m1"⟩], [⟨"d1", "plan"⟩]⟩) ∧
    ((executeTransaction [] mTwoRefs "ctx" [] [⟨"d2", "plan"⟩] "missing" fsEmpty
        planOk).manifest
      = ⟨⟨"", [], [⟨"d2", "plan"⟩]⟩, [⟨"s", [⟨"f.ts", "m0"⟩, ⟨"g.ts", "m1"⟩], []⟩]⟩) ∧
    factsExtend mTwoRefs
      (runTxs "ctx" [⟨[], [], [⟨"d1", "plan"⟩], "s", planOk⟩,
                     ⟨[], [], [⟨"d2", "plan"⟩], "missing", planOk⟩] mTwoRefs fsEmpty).1 := by
  refine ⟨?_, ?_, ?_⟩
  · have := C5_facts_append_only.1 [] mTwoRefs "ctx" [] [⟨"d1", "plan"⟩] "s" fsEmpty planOk
      ⟨"s", [⟨"f.ts", "m0"⟩, ⟨"g.ts", "m1"⟩], []⟩ rfl rfl
    simpa using this
  · have := C5_facts_append_only.2.1 [] mTwoRefs "ctx" [] [⟨"d2", "plan"⟩] "missing" fsEmpty
      planOk rfl rfl
    simpa using this
  · exact C5_facts_append_only.2.2 "ctx"
      [⟨[], [], [⟨"d1", "plan"⟩], "s", planOk⟩, ⟨[], [], [⟨"d2", "plan"⟩], "missing", planOk⟩]
      mTwoRefs fsEmpty

/-- **C6.** For every call to `executeTransaction` with an empty ops list, the
coordinator still performs the ref update, the fact append, and the manifest
persist (steps 2–4): provided the persist itself does not fail, a
metadata-only transaction commits, the manifest object carries the refs/facts
deltas, and the manifest file is durably (re)written at `contextPath` — and
nothing else on disk is touched. -/
theorem C6_metadata_only_transaction
    (m : ContextManifest) (cp : String) (nr : List ContextRef) (nf : List ContextFact)
    (sp : String) (fs : FS) (plan : FailPlan) (hp : plan.persistFails = false) :
    (executeTransaction [] m cp nr nf sp fs plan).error = none ∧
    (executeTransaction [] m cp nr nf sp fs plan).manifest = commitRefsFacts m nr nf sp ∧
    (executeTransaction [] m cp nr nf sp fs plan).fs cp
      = some (serializeContextManifest (commitRefsFacts m nr nf sp)) ∧
    ∀ p, p ≠ cp → (executeTransaction [] m cp nr nf sp fs plan).fs p = fs p := by
  have hfa : (applyOps plan [] fs 0).failedAt = none := rfl
  refine ⟨by simp [executeTransaction, hfa, hp], by simp [executeTransaction, hfa, hp], ?_, ?_⟩
  · have : (executeTransaction [] m cp nr nf sp fs plan).fs
        = fsWrite fs cp (serializeContextManifest (commitRefsFacts m nr nf sp)) := by
      simp [executeTransaction, hfa, hp, applyOps]
    rw [this]
    exact fsWrite_self fs cp _
  · intro p hne
    have : (executeTransaction [] m cp nr nf sp fs plan).fs
        = fsWrite fs cp (serializeContextManifest (commitRefsFacts m nr nf sp)) := by
      simp [executeTransaction, hfa, hp, applyOps]
    rw [this]
    exact fsWrite_other fs cp _ p hne

/-- Witness for C6: a metadata-only transaction (no ops, one ref, one fact)
commits and writes the manifest file. -/
theorem C6_witness :
    (executeTransaction [] mTwoRefs "ctx" [⟨"h.ts", "H"⟩] [⟨"d", "plan"⟩] "s" fsEmpty
        planOk).error = none ∧
    (executeTransaction [] mTwoRefs "ctx" [⟨"h.ts", "H"⟩] [⟨"d", "plan"⟩] "s" fsEmpty
        planOk).manifest
      = commitRefsFacts mTwoRefs [⟨"h.ts", "H"⟩] [⟨"d", "plan"⟩] "s" ∧
    (executeTransaction [] mTwoRefs "ctx" [⟨"h.ts", "H"⟩] [⟨"d", "plan"⟩] "s" fsEmpty
        planOk).fs "ctx"
      = some (serializeContextManifest
          (commitRefsFacts mTwoRefs [⟨"h.ts", "H"⟩] [⟨"d", "plan"⟩] "s")) ∧
    ∀ p, p ≠ "ctx" →
      (executeTransaction [] mTwoRefs "ctx" [⟨"h.ts", "H"⟩] [⟨"d", "plan"⟩] "s" fsEmpty
        planOk).fs p = fsEmpty p :=
  C6_metadata_only_transaction mTwoRefs "ctx" [⟨"h.ts", "H"⟩] [⟨"d", "plan"⟩] "s" fsEmpty
    planOk rfl

/-- **C9 (implicit).** For every call to `executeTransaction` where no scope
in the manifest has a path equal to `scopePath`, none of `newRefs` is applied
anywhere in the manifest — the scopes list is entirely unchanged and the
global scope's refs are unchanged, so the refs are silently dropped rather
than added or reported — while `newFacts` are still appended to the global
scope, and (absent op/persist failures) the transaction completes
successfully. -/
theorem C9_refs_silently_dropped_without_scope
    (ops : List TransactionOp) (m : ContextManifest) (cp : String)
    (nr : List ContextRef) (nf : List ContextFact) (sp : String) (fs : FS) (plan : FailPlan)
    (hns : scopeExists m sp = false)
    (hok : (applyOps plan ops fs 0).failedAt = none)
    (hpf : plan.persistFails = false) :
    (executeTransaction ops m cp nr nf sp fs plan).error = none ∧
    (executeTransaction ops m cp nr nf sp fs plan).manifest.scopes = m.scopes ∧
    (executeTransaction ops m cp nr nf sp fs plan).manifest.global.refs = m.global.refs ∧
    (executeTransaction ops m cp nr nf sp fs plan).manifest.global.facts
      = m.global.facts ++ nf := by
  have herr : (executeTransaction ops m cp nr nf sp fs plan).error = none := by
    simp [executeTransaction, hok, hpf]
  have hm := committed_manifest ops m cp nr nf sp fs plan herr
  rw [commitRefsFacts_no_scope m nr nf sp hns] at hm
  exact ⟨herr, by rw [hm], by rw [hm], by rw [hm]⟩

/-- Witness for C9: a transaction naming scope `"missing"` on `mTwoRefs` with
one write op, one ref and one fact: it commits, scope `"s"` keeps its refs,
and the fact lands on the global list. -/
theorem C9_witness :
    (executeTransaction [{ type := OpType.write, file := "a.txt", content := some "x" }]
        mTwoRefs "ctx" [⟨"h.ts", "H"⟩] [⟨"d", "plan"⟩] "missing" fsEmpty planOk).error = none ∧
    (executeTransaction [{ type := OpType.write, file := "a.txt", content := some "x" }]
        mTwoRefs "ctx" [⟨"h.ts", "H"⟩] [⟨"d", "plan"⟩] "missing" fsEmpty planOk).manifest.scopes
      = mTwoRefs.scopes ∧
    (executeTransaction [{ type := OpType.write, file := "a.txt", content := some "x" }]
        mTwoRefs "ctx" [⟨"h.ts", "H"⟩] [⟨"d", "plan"⟩] "missing" fsEmpty
        planOk).manifest.global.refs = mTwoRefs.global.refs ∧
    (executeTransaction [{ type := OpType.write, file := "a.txt", content := some "x" }]
        mTwoRefs "ctx" [⟨"h.ts", "H"⟩] [⟨"d", "plan"⟩] "missing" fsEmpty
        planOk).manifest.global.facts = mTwoRefs.global.facts ++ [⟨"d", "plan"⟩] :=
  C9_refs_silently_dropped_without_scope
    [{ type := OpType.write, file := "a.txt", content := some "x" }]
    mTwoRefs "ctx" [⟨"h.ts", "H"⟩] [⟨"d", "plan"⟩] "missing" fsEmpty planOk
    (by decide) (by decide) rfl

/-- **C10 (implicit).** A delete op whose target file does not exist is
silently skipped: (a) in the step-1 loop it raises no error (even when the
failure plan marks its index as failing, no filesystem primitive runs),
captures no previous content, is not added to the completed list, and the
loop proceeds with the remaining ops on the same filesystem and the next
index; (b) a transaction consisting of such a delete never fails with an op
error — it commits when the persist succeeds, re-raises only the persist
failure otherwise — and the target file stays absent in both cases (in
particular the rollback never recreates it). -/
theorem C10_delete_of_missing_file_skipped
    : (∀ (plan : FailPlan) (dop : TransactionOp) (rest : List TransactionOp) (fs : FS) (i : Nat),
        dop.type = OpType.delete → fs dop.file = none →
        applyOps plan (dop :: rest) fs i = applyOps plan rest fs (i + 1))
    ∧ (∀ (m : ContextManifest) (cp : String) (nr : List ContextRef) (nf : List ContextFact)
        (sp : String) (fs : FS) (plan : FailPlan) (dop : TransactionOp),
        dop.type = OpType.delete → fs dop.file = none → dop.file ≠ cp →
        (executeTransaction [dop] m cp nr nf sp fs plan).error
          = (if plan.persistFails then some TxError.persistFailed else none) ∧
        (executeTransaction [dop] m cp nr nf sp fs plan).fs dop.file = none) := by
  constructor
  · intro plan dop rest fs i hty hmiss
    obtain ⟨ty, f, co, pc⟩ := dop
    simp only at hty hmiss
    subst hty
    simp [applyOps, existsSync, hmiss]
  · intro m cp nr nf sp fs plan dop hty hmiss hne
    have hskip : applyOps plan [dop] fs 0 = ⟨[], fs, none⟩ := by
      obtain ⟨ty, f, co, pc⟩ := dop
      simp only at hty hmiss
      subst hty
      simp [applyOps, existsSync, hmiss]
    by_cases hpf : plan.persistFails
    · constructor
      · simp [executeTransaction, hskip, hpf]
      · have : (executeTransaction [dop] m cp nr nf sp fs plan).fs
            = rollback plan ([] : List TransactionOp).reverse fs 0 := by
          simp [executeTransaction, hskip, hpf]
        rw [this]
        exact hmiss
    · constructor
      · simp [executeTransaction, hskip, hpf]
      · have : (executeTransaction [dop] m cp nr nf sp fs plan).fs
            = fsWrite fs cp (serializeContextManifest (commitRefsFacts m nr nf sp)) := by
          simp [executeTransaction, hskip, hpf]
        rw [this, fsWrite_other fs cp _ dop.file hne]
        exact hmiss

/-- Witness for C10: deleting the absent `ghost.txt` is skipped in the loop
(even with every op index marked as failing) and a one-op transaction with it
commits, leaving the file absent. -/
theorem C10_witness :
    (applyOps ⟨fun _ => true, false, fun _ => false⟩
        [{ type := OpType.delete, file := "ghost.txt" },
         { type := OpType.write, file := "a.txt", content := some "x" }] fsEmpty 0
      = applyOps ⟨fun _ => true, false, fun _ => false⟩
        [{ type := OpType.write, file := "a.txt", content := some "x" }] fsEmpty 1) ∧
    ((executeTransaction [{ type := OpType.delete, file := "ghost.txt" }] mTwoRefs "ctx"
        [] [] "s" fsEmpty planOk).error
      = (if planOk.persistFails then some TxError.persistFailed else none) ∧
     (executeTransaction [{ type := OpType.delete, file := "ghost.txt" }] mTwoRefs "ctx"
        [] [] "s" fsEmpty planOk).fs "ghost.txt" = none) :=
  ⟨C10_delete_of_missing_file_skipped.1 ⟨fun _ => true, false, fun _ => false⟩
      { type := OpType.delete, file := "ghost.txt" }
      [{ type := OpType.write, file := "a.txt", content := some "x" }] fsEmpty 0 rfl rfl,
   C10_delete_of_missing_file_skipped.2 mTwoRefs "ctx" [] [] "s" fsEmpty planOk
      { type := OpType.delete, file := "ghost.txt" } rfl rfl (by decide)⟩

/-! ## System Scaffolder (`src/system-manager.ts`) -/

/-- `SystemComponent`: one declared component of a system document. The TS
parser coerces an empty trimmed description to `undefined`, so `description`
is an `Option`. -/
structure SystemComponent where
  name : String
  type : String
  submodule : Bool
  description : Option String
deriving DecidableEq, Repr

/-- `SystemProject`: the system document's root name and components. -/
structure SystemProject where
  name : String
  components : List SystemComponent
  manifestPath : String
deriving DecidableEq, Repr

/-- Modelled from the spec: Node's `path.join`, used only to assemble the
scaffolder's component paths; modelled as slash concatenation (none of the
inputs exercised here needs normalization). -/
def joinPath (a b : String) : String := a ++ "/" ++ b

/-- Disk state seen by the scaffolder: files plus a set of directories. -/
structure ScaffoldState where
  files : FS
  dirs : String → Bool

/-- Whether the `git submodule add` attempt for a component raises (it may
fail without a remote); the scaffolder then falls back to a plain directory. -/
structure ScaffoldEnv where
  submoduleFails : String → Bool

/-- Result of one scaffolding pass: the disk state, the `created` report
list, and the file paths passed to `writeFile`, in order. -/
structure ScaffoldResult where
  state : ScaffoldState
  created : List String
  writes : List String

/-- `mkdir` (recursive): registers the directory. -/
def mkdirAt (st : ScaffoldState) (d : String) : ScaffoldState :=
  { st with dirs := fun p => if p = d then true else st.dirs p }

/-- `if (!existsSync(dir)) await mkdir(dir, { recursive: true })`. -/
def ensureDir (st : ScaffoldState) (d : String) : ScaffoldState :=
  if st.dirs d then st else mkdirAt st d

/-- Step 1 of `createSystemComponents` for one component: create its directory
— via `git submodule add` when `submodule` is set (which creates the
directory), falling back to a plain `mkdir` when the submodule attempt
raises. -/
def componentDirStep (env : ScaffoldEnv) (projectRoot : String) (st : ScaffoldState)
    (component : SystemComponent) : ScaffoldState :=
  let componentDir := joinPath projectRoot component.name
  if component.submodule then
    if st.dirs componentDir then st
    else if env.submoduleFails component.name then ensureDir st componentDir
    else mkdirAt st componentDir
  else ensureDir st componentDir

/-- `generateComponentSkeleton` from `src/system-manager.ts`. -/
def generateComponentSkeleton (component : SystemComponent) (systemName : String) : String :=
  let fqn := systemName ++ ":" ++ component.name
  let desc := match component.description with
    | some d => "\n    <!-- " ++ d ++ " -->"
    | none => ""
  "<component name=\"" ++ component.name ++ "\" fqn=\"" ++ fqn ++ "\">\n\n  <interface>"
    ++ desc
    ++ "\n    <!-- Define what this component exposes -->\n  </interface>\n\n  <constraints>\n    <!-- Define environment requirements -->\n  </constraints>\n\n  <requires>\n    <!-- Define dependencies by interface -->\n  </requires>\n\n  <implementation target=\"typescript\" type=\""
    ++ component.type
    ++ "\">\n    <modules>\n      <!-- Define internal modules -->\n    </modules>\n  </implementation>\n\n</component>\n"

/-- `generateComponentContext` from `src/system-manager.ts`. -/
def generateComponentContext (component : SystemComponent) (systemName : String) : String :=
  "<claudiv-context for=\"" ++ component.name ++ ".cdml\" auto-generated=\"true\">\n  <global>\n    <refs></refs>\n    <facts>\n      <fact>Part of system: "
    ++ systemName ++ "</fact>\n      <fact>Component type: " ++ component.type
    ++ "</fact>\n    </facts>\n  </global>\n</claudiv-context>\n"

/-- The content `updateProjectManifest` writes. -/
def projectManifestContent (system : SystemProject) : String :=
  let directories := String.intercalate "\n"
    (system.components.map (fun c =>
      "    <directory path=\"" ++ c.name ++ "/\" pattern=\"*.cdml\" />"))
  "<project name=\"" ++ system.name
    ++ "\">\n  <auto-discover>\n    <directory path=\".\" pattern=\"*.cdml\" />\n"
    ++ directories
    ++ "\n    <directory path=\"aspects/\" pattern=\"*.*.cdml\" />\n  </auto-discover>\n</project>\n"

/-- Steps 1–3 of `createSystemComponents` for one component: directory, then
skeleton document if none exists, then `.claudiv` directory and component
context manifest if none exists. -/
def scaffoldComponent (env : ScaffoldEnv) (systemName projectRoot : String)
    (acc : ScaffoldResult) (component : SystemComponent) : ScaffoldResult :=
  let componentDir := joinPath projectRoot component.name
  let st1 := componentDirStep env projectRoot acc.state component
  let cdmlPath := joinPath componentDir (component.name ++ ".cdml")
  let acc2 : ScaffoldResult :=
    if (st1.files cdmlPath).isSome then
      { state := st1, created := acc.created, writes := acc.writes }
    else
      { state := { st1 with
          files := fsWrite st1.files cdmlPath (generateComponentSkeleton component systemName) },
        created := acc.created ++ [component.name ++ "/" ++ component.name ++ ".cdml"],
        writes := acc.writes ++ [cdmlPath] }
  let claudivDir := joinPath componentDir ".claudiv"
  let st3 := ensureDir acc2.state claudivDir
  let contextPath := joinPath claudivDir "context.cdml"
  if (st3.files contextPath).isSome then
    { state := st3, created := acc2.created, writes := acc2.writes }
  else
    { state := { st3 with
        files := fsWrite st3.files contextPath (generateComponentContext component systemName) },
      created := acc2.created ++ [component.name ++ "/.claudiv/context.cdml"],
      writes := acc2.writes ++ [contextPath] }

/-- `createSystemComponents` from `src/system-manager.ts`: scaffold every
component, then unconditionally rewrite the project manifest
(`updateProjectManifest`) and report it as updated. -/
def createSystemComponents (env : ScaffoldEnv) (system : SystemProject)
    (projectRoot : String) (st : ScaffoldState) : ScaffoldResult :=
  let r := system.components.foldl (scaffoldComponent env system.name projectRoot)
    { state := st, created := [], writes := [] }
  let manifestPath := joinPath projectRoot "claudiv.project.cdml"
  { state := { r.state with
      files := fsWrite r.state.files manifestPath (projectManifestContent system) },
    created := r.created ++ ["claudiv.project.cdml (updated)"],
    writes := r.writes ++ [manifestPath] }

theorem fsWrite_same (fs : FS) (p v : String) (h : fs p = some v) : fsWrite fs p v = fs := by
  funext q
  by_cases hq : q = p
  · subst hq; rw [fsWrite_self, h]
  · exact fsWrite_other fs p v q hq

theorem mkdirAt_files (st : ScaffoldState) (d : String) : (mkdirAt st d).files = st.files := rfl

theorem ensureDir_files (st : ScaffoldState) (d : String) : (ensureDir st d).files = st.files := by
  rw [ensureDir]; split <;> rfl

theorem componentDirStep_files (env : ScaffoldEnv) (root : String) (st : ScaffoldState)
    (c : SystemComponent) : (componentDirStep env root st c).files = st.files := by
  rw [componentDirStep]
  split
  · split
    · rfl
    · split
      · exact ensureDir_files st _
      · rfl
  · exact ensureDir_files st _

/-- When a component's skeleton document and context manifest are both already
present, scaffolding it writes nothing and reports nothing. -/
theorem scaffoldComponent_no_writes (env : ScaffoldEnv) (sysName root : String)
    (acc : ScaffoldResult) (c : SystemComponent)
    (hskel : (acc.state.files (joinPath (joinPath root c.name) (c.name ++ ".cdml"))).isSome)
    (hctx : (acc.state.files
      (joinPath (joinPath (joinPath root c.name) ".claudiv") "context.cdml")).isSome) :
    (scaffoldComponent env sysName root acc c).state.files = acc.state.files ∧
    (scaffoldComponent env sysName root acc c).created = acc.created ∧
    (scaffoldComponent env sysName root acc c).writes = acc.writes := by
  rw [scaffoldComponent]
  simp only [componentDirStep_files, ensureDir_files, mkdirAt_files]
  rw [if_pos hskel]
  simp only [componentDirStep_files, ensureDir_files, mkdirAt_files]
  rw [if_pos hctx]
  exact ⟨(ensureDir_files _ _).trans (componentDirStep_files env root acc.state c), rfl, rfl⟩

theorem scaffold_fold_no_writes (env : ScaffoldEnv) (sysName root : String) :
    ∀ (cs : List SystemComponent) (acc : ScaffoldResult),
      (∀ c ∈ cs, (acc.state.files (joinPath (joinPath root c.name) (c.name ++ ".cdml"))).isSome) →
      (∀ c ∈ cs, (acc.state.files
        (joinPath (joinPath (joinPath root c.name) ".claudiv") "context.cdml")).isSome) →
      (cs.foldl (scaffoldComponent env sysName root) acc).state.files = acc.state.files ∧
      (cs.foldl (scaffoldComponent env sysName root) acc).created = acc.created ∧
      (cs.foldl (scaffoldComponent env sysName root) acc).writes = acc.writes := by
  intro cs
  induction cs with
  | nil => intro acc _ _; exact ⟨rfl, rfl, rfl⟩
  | cons c rest ih =>
    intro acc hskel hctx
    rw [List.foldl_cons]
    obtain ⟨hf, hc, hw⟩ := scaffoldComponent_no_writes env sysName root acc c
      (hskel c (List.mem_cons_self c rest)) (hctx c (List.mem_cons_self c rest))
    obtain ⟨hf', hc', hw'⟩ := ih (scaffoldComponent env sysName root acc c)
      (fun x hx => by rw [hf]; exact hskel x (List.mem_cons_of_mem c hx))
      (fun x hx => by rw [hf]; exact hctx x (List.mem_cons_of_mem c hx))
    exact ⟨hf'.trans hf, hc'.trans hc, hw'.trans hw⟩

/-- **C7 counterexample.** The claim that a second scaffolder run on an
unchanged system document performs no file writes — in particular never
(over)writes the project manifest — is false at a concrete input: after a
first run from an empty disk, the second run still issues exactly one
`writeFile`, overwriting the existing `claudiv.project.cdml`. -/
theorem C7_counterexample :
    (createSystemComponents ⟨fun _ => false⟩ ⟨"sys", [⟨"web", "webapp", false, some "A"⟩], ""⟩
        "." ⟨fsEmpty, fun _ => false⟩).state.files "./claudiv.project.cdml"
      = some (projectManifestContent ⟨"sys", [⟨"web", "webapp", false, some "A"⟩], ""⟩) ∧
    (createSystemComponents ⟨fun _ => false⟩ ⟨"sys", [⟨"web", "webapp", false, some "A"⟩], ""⟩
        "."
        (createSystemComponents ⟨fun _ => false⟩ ⟨"sys", [⟨"web", "webapp", false, some "A"⟩], ""⟩
          "." ⟨fsEmpty, fun _ => false⟩).state).writes
      = ["./claudiv.project.cdml"] := by
  exact ⟨rfl, by decide⟩

/-- **C7 (amended).** The scaffolder is idempotent for the per-component
artifacts only: on a second run over an unchanged system document with every
component's skeleton document and context manifest already present, no
skeleton or context file is written — the run's only `writeFile` is the
unconditional rewrite of the project manifest `claudiv.project.cdml`; and
since its content depends only on the system document, that rewrite is
byte-identical, so when the manifest already holds that content the disk is
left exactly unchanged. -/
theorem C7_second_run_writes_only_project_manifest
    (env : ScaffoldEnv) (sys : SystemProject) (root : String) (st : ScaffoldState)
    (hskel : ∀ c ∈ sys.components,
      (st.files (joinPath (joinPath root c.name) (c.name ++ ".cdml"))).isSome)
    (hctx : ∀ c ∈ sys.components,
      (st.files (joinPath (joinPath (joinPath root c.name) ".claudiv") "context.cdml")).isSome) :
    (createSystemComponents env sys root st).writes = [joinPath root "claudiv.project.cdml"] ∧
    (createSystemComponents env sys root st).state.files
      = fsWrite st.files (joinPath root "claudiv.project.cdml") (projectManifestContent sys) ∧
    (st.files (joinPath root "claudiv.project.cdml") = some (projectManifestContent sys) →
      (createSystemComponents env sys root st).state.files = st.files) := by
  obtain ⟨hf, _, hw⟩ := scaffold_fold_no_writes env sys.name root sys.components
    ⟨st, [], []⟩ hskel hctx
  refine ⟨?_, ?_, ?_⟩
  · show (sys.components.foldl (scaffoldComponent env sys.name root) ⟨st, [], []⟩).writes
        ++ [joinPath root "claudiv.project.cdml"] = [joinPath root "claudiv.project.cdml"]
    rw [hw]
    rfl
  · show fsWrite (sys.components.foldl (scaffoldComponent env sys.name root)
        ⟨st, [], []⟩).state.files (joinPath root "claudiv.project.cdml")
        (projectManifestContent sys) = _
    rw [hf]
  · intro hsame
    show fsWrite (sys.components.foldl (scaffoldComponent env sys.name root)
        ⟨st, [], []⟩).state.files (joinPath root "claudiv.project.cdml")
        (projectManifestContent sys) = st.files
    rw [hf]
    exact fsWrite_same st.files _ _ hsame

/-- Witness for C7 (amended): applied to the disk state after a first run on
a one-component system, the second run's only write is the project manifest,
and the disk is left unchanged. -/
theorem C7_witness :
    (createSystemComponents ⟨fun _ => false⟩ ⟨"sys", [⟨"web", "webapp", false, some "A"⟩], ""⟩
        "."
        (createSystemComponents ⟨fun _ => false⟩ ⟨"sys", [⟨"web", "webapp", false, some "A"⟩], ""⟩
          "." ⟨fsEmpty, fun _ => false⟩).state).state.files
      = (createSystemComponents ⟨fun _ => false⟩ ⟨"sys", [⟨"web", "webapp", false, some "A"⟩], ""⟩
          "." ⟨fsEmpty, fun _ => false⟩).state.files :=
  (C7_second_run_writes_only_project_manifest ⟨fun _ => false⟩
    ⟨"sys", [⟨"web", "webapp", false, some "A"⟩], ""⟩ "."
    (createSystemComponents ⟨fun _ => false⟩ ⟨"sys", [⟨"web", "webapp", false, some "A"⟩], ""⟩
      "." ⟨fsEmpty, fun _ => false⟩).state
    (by decide) (by decide)).2.2 rfl

/-! ## Watch loop and change processor (CLI engine)

Control-flow skeleton of the CLI engine's watch mode: the module-level
`cache : Map<string, string>`, the `watcher.on('change', ...)` handler, and
`processFileChange` / `processChange`. The external collaborators (`diffCdml`,
`parseSpecFile`, the plan handlers' filesystem writes, and the generation call
inside `processChange`) are represented by an environment recording, per
external step of one cycle, whether it returns normally or raises — only those
outcomes govern the control flow the claim is about. -/

/-- Modelled from the spec: outcomes of one watch cycle's external steps. -/
structure WatchEnv where
  /-- the handler's `readFile` of the changed document succeeds -/
  readOk : Bool
  /-- `diffCdml` raises -/
  diffThrows : Bool
  /-- `parseSpecFile` raises -/
  parseThrows : Bool
  /-- a plan-directive / plan-answer handler raises -/
  planThrows : Bool
  /-- number of (scope-filtered) changes the diff produced -/
  changeCount : Nat
  /-- whether processing change `i` fails inside `processChange`'s try block
  (generation failure, commit failure, …) -/
  changeFails : Nat → Bool

/-- Outcome of `processFileChange`: either an error propagated out of it, or
it returned normally, with the per-change transaction success flags (failures
there are caught and only logged). -/
inductive CycleOutcome where
  | raised
  | completed (txOk : List Bool)
deriving DecidableEq, Repr

/-- `processChange`: the whole body is wrapped in `try { ... } catch { log;
in-memory manifest restore }` — it never lets the failure escape; it only
reports (logs) whether the change committed. -/
def processChange (env : WatchEnv) (i : Nat) : Bool :=
  !(env.changeFails i)

/-- `processFileChange`: diff, parse/classify, plan handling — any of which
may raise and propagate — then each change is processed by `processChange`,
which swallows its own failures. -/
def processFileChange (env : WatchEnv) : CycleOutcome :=
  if env.diffThrows then CycleOutcome.raised
  else if env.parseThrows then CycleOutcome.raised
  else if env.planThrows then CycleOutcome.raised
  else CycleOutcome.completed ((List.range env.changeCount).map (processChange env))

/-- The module-level CDML cache for diff detection. -/
def Cache : Type := String → Option String

/-- `cache.set(relativePath, newContent)`. -/
def cacheSet (c : Cache) (k v : String) : Cache :=
  fun p => if p = k then some v else c p

/-- The `watcher.on('change', ...)` handler: read the file, run
`processFileChange`, and only if nothing propagated, `cache.set` the new
content; the surrounding `try/catch` turns a propagated error into a log line,
leaving the cache untouched. -/
def onChangeEvent (env : WatchEnv) (cache : Cache) (relPath newContent : String) : Cache :=
  if env.readOk = false then cache
  else
    match processFileChange env with
    | CycleOutcome.raised => cache
    | CycleOutcome.completed _ => cacheSet cache relPath newContent

/-- **C8 counterexample.** The claim that the cache entry is updated only
after a fully successful diff→classify→transact cycle is false at a concrete
input: with one detected change whose transaction fails, `processChange`
catches the failure internally, `processFileChange` returns normally (the
change's commit flag is `false`), and the handler still updates the cache
entry from `"old"` to `"new"`. -/
theorem C8_counterexample :
    processFileChange ⟨true, false, false, false, 1, fun _ => true⟩
      = CycleOutcome.completed [false] ∧
    (cacheSet (fun _ => none) "app.cdml" "old") "app.cdml" = some "old" ∧
    onChangeEvent ⟨true, false, false, false, 1, fun _ => true⟩
      (cacheSet (fun _ => none) "app.cdml" "old") "app.cdml" "new" "app.cdml"
      = some "new" :=
  ⟨rfl, rfl, rfl⟩

/-- **C8 (amended).** In watch mode the Change Cache entry for a path is
updated exactly when the cycle's *propagating* steps succeed: if the file
read, the diff, the classification parse, or the plan handling raises, the
handler's catch leaves the cache untouched, so the next event for the same
path re-diffs against the same prior baseline; but a failure inside an
individual change's transaction is caught and logged within `processChange`
and does not prevent the cache update — the cache is set afterwards
regardless of the per-change commit flags. -/
theorem C8_cache_updated_unless_cycle_raises
    (env : WatchEnv) (cache : Cache) (relPath newContent : String) :
    ((env.readOk = false ∨ env.diffThrows = true ∨ env.parseThrows = true ∨
        env.planThrows = true) →
      onChangeEvent env cache relPath newContent = cache) ∧
    (env.readOk = true → env.diffThrows = false → env.parseThrows = false →
      env.planThrows = false →
      onChangeEvent env cache relPath newContent = cacheSet cache relPath newContent) := by
  constructor
  · intro h
    rcases h with h | h | h | h
    · rw [onChangeEvent, if_pos h]
    all_goals
      rw [onChangeEvent]
      split
      · rfl
      · simp [processFileChange, h]
  · intro hr hd hp hq
    rw [onChangeEvent, if_neg (by simp [hr])]
    simp [processFileChange, hd, hp, hq]

/-- Witness for C8 (amended): a cycle whose diff raises leaves the cache
untouched; a cycle whose only change's transaction fails still updates the
cache. -/
theorem C8_witness :
    onChangeEvent ⟨true, true, false, false, 0, fun _ => false⟩
      (cacheSet (fun _ => none) "app.cdml" "old") "app.cdml" "new"
      = cacheSet (fun _ => none) "app.cdml" "old" ∧
    onChangeEvent ⟨true, false, false, false, 1, fun _ => true⟩
      (cacheSet (fun _ => none) "app.cdml" "old") "app.cdml" "new"
      = cacheSet (cacheSet (fun _ => none) "app.cdml" "old") "app.cdml" "new" :=
  ⟨(C8_cache_updated_unless_cycle_raises ⟨true, true, false, false, 0, fun _ => false⟩
      (cacheSet (fun _ => none) "app.cdml" "old") "app.cdml" "new").1
      (Or.inr (Or.inl rfl)),
   (C8_cache_updated_unless_cycle_raises ⟨true, false, false, false, 1, fun _ => true⟩
      (cacheSet (fun _ => none) "app.cdml" "old") "app.cdml" "new").2
      rfl rfl rfl rfl⟩

end Claudiv
